import Mathlib

/-!
Verification of the `headaches` Brainfuck interpreter.

Characters are represented by their Unicode code points (`Nat`), bytes by
`Nat` values below 256; wrapping 8-bit arithmetic is written with explicit
`% 256`.  The source files embedded here are `src/compat.rs` (the ISO-8859-1
codec) and `src/lib.rs` (the `State` executor and the `TryFrom<char>`
classifier); stdin/stdout are modelled as explicit lists of code points.
-/

set_option maxRecDepth 100000

namespace Headaches

/-- The 16×16 character table of `src/compat.rs`, rows of code points.
Row `r`, column `c` holds the character for byte `16*r + c`.  Cell `[2][0]`
(byte 0x20) is 8201, U+2009 THIN SPACE in the source file, not the plain
space 32 that fills rows 0, 1, 8, 9, cell `[7][15]` and nothing else. -/
def CHAR_TABLE : List (List Nat) := [
  [32, 32, 32, 32, 32, 32, 32, 32, 32, 32, 32, 32, 32, 32, 32, 32],
  [32, 32, 32, 32, 32, 32, 32, 32, 32, 32, 32, 32, 32, 32, 32, 32],
  [8201, 33, 34, 35, 36, 37, 38, 39, 40, 41, 42, 43, 44, 45, 46, 47],
  [48, 49, 50, 51, 52, 53, 54, 55, 56, 57, 58, 59, 60, 61, 62, 63],
  [64, 65, 66, 67, 68, 69, 70, 71, 72, 73, 74, 75, 76, 77, 78, 79],
  [80, 81, 82, 83, 84, 85, 86, 87, 88, 89, 90, 91, 92, 93, 94, 95],
  [96, 97, 98, 99, 100, 101, 102, 103, 104, 105, 106, 107, 108, 109, 110, 111],
  [112, 113, 114, 115, 116, 117, 118, 119, 120, 121, 122, 123, 124, 125, 126, 32],
  [32, 32, 32, 32, 32, 32, 32, 32, 32, 32, 32, 32, 32, 32, 32, 32],
  [32, 32, 32, 32, 32, 32, 32, 32, 32, 32, 32, 32, 32, 32, 32, 32],
  [163, 161, 162, 163, 164, 165, 166, 167, 168, 169, 170, 171, 172, 173, 174, 175],
  [176, 177, 178, 179, 180, 181, 182, 183, 184, 185, 186, 187, 188, 189, 190, 191],
  [192, 193, 194, 195, 196, 197, 198, 199, 200, 201, 202, 203, 204, 205, 206, 207],
  [208, 209, 210, 211, 212, 213, 214, 215, 216, 217, 218, 219, 220, 221, 222, 223],
  [224, 225, 226, 227, 228, 229, 230, 231, 232, 233, 234, 235, 236, 237, 238, 239],
  [240, 241, 242, 243, 244, 245, 246, 247, 248, 249, 250, 251, 252, 253, 254, 255]]

/-- `to_char_8859` of `src/compat.rs`: byte `b` to its character,
`CHAR_TABLE[b / 16][b % 16]`. -/
def to_char_8859 (b : Nat) : Nat :=
  ((CHAR_TABLE.getD (b / 16) []).getD (b % 16) 0)

/-- `from_char_8859` of `src/compat.rs`: scan every row (enumerated as in the
Rust `iter().enumerate()`), inside a row stop at the first cell equal to `c`
(the inner `break`), each later matching row overwriting the candidate; the
fallback for a character outside the table is byte 0. -/
def from_char_8859 (c : Nat) : Nat :=
  let b : Option Nat :=
    CHAR_TABLE.enum.foldl
      (fun b p =>
        match p.2.findIdx? (fun guess => c == guess) with
        | some d2 => some ((p.1 * 16 + d2) % 256)
        | none => b)
      none
  match b with
  | some b => b
  | none => 0

/-- Number of table cells holding character `c`. -/
def tableCount (c : Nat) : Nat :=
  (CHAR_TABLE.map (fun row => row.count c)).sum

/-- The largest row index whose row contains `c` (0 when no row does). -/
def lastRowWith (c : Nat) : Nat :=
  CHAR_TABLE.enum.foldl (fun acc p => if c ∈ p.2 then p.1 else acc) 0

/-- The smallest column index of `c` within row `r` (0 when absent). -/
def firstColIn (r c : Nat) : Nat :=
  (((CHAR_TABLE.getD r []).findIdx? (fun guess => c == guess)).getD 0)

end Headaches

namespace Headaches

/-- The `Instruction` enum of `src/lib.rs`: eight variants, `Loop` owning an
ordered sequence of child instructions, `LoopEnd` the parser-internal
sentinel. -/
inductive Instruction where
  | Increment : Instruction
  | Decrement : Instruction
  | Forward : Instruction
  | Backward : Instruction
  | Loop : List Instruction → Instruction
  | LoopEnd : Instruction
  | Out : Instruction
  | In : Instruction

/-- The `State` struct of `src/lib.rs`: memory cells (`u8` as `Nat`), the
pointer, and the `outted` flag. -/
structure State where
  mem : List Nat
  pointer : Nat
  outted : Bool

/-- The process's standard streams, made explicit: the bytes still waiting
on stdin and the code points written to stdout so far. -/
structure Streams where
  stdin : List Nat
  stdout : List Nat

/-- `TryFromCharError` of `src/lib.rs`. -/
structure TryFromCharError where

/-- `TryFrom<char> for Instruction` of `src/lib.rs`, on the character's code
point: the eight instruction characters map to their variants (`[` to an
empty `Loop`, `]` to `LoopEnd`), everything else to the error. -/
def instructionTryFromChar (c : Nat) : Except TryFromCharError Instruction :=
  if c = 43 then .ok .Increment
  else if c = 45 then .ok .Decrement
  else if c = 62 then .ok .Forward
  else if c = 60 then .ok .Backward
  else if c = 91 then .ok (.Loop [])
  else if c = 93 then .ok .LoopEnd
  else if c = 46 then .ok .Out
  else if c = 44 then .ok .In
  else .error ⟨⟩

mutual

/-- `State::run` of `src/lib.rs` as fuel-indexed state passing: `none` is a
run that panicked (an out-of-bounds `self.mem[self.pointer]` access) or ran
out of fuel; every recursive call spends one unit of fuel, so any
terminating Rust run is reproduced by a large enough fuel.  Wrapping `u8`
arithmetic (`overflowing_add`/`overflowing_sub`) is `% 256`; `In` reads one
byte from `stdin` (`None`/`Err` collapse to the empty stream) and `Out`
appends `to_char_8859` of the cell to `stdout`. -/
def run : Nat → Instruction → State → Streams → Option (State × Streams)
  | 0, _, _, _ => none
  | Nat.succ _, Instruction.Increment, s, env =>
    match s.mem[s.pointer]? with
    | none => none
    | some v => some ({ s with mem := s.mem.set s.pointer ((v + 1) % 256) }, env)
  | Nat.succ _, Instruction.Decrement, s, env =>
    match s.mem[s.pointer]? with
    | none => none
    | some v => some ({ s with mem := s.mem.set s.pointer ((v + 256 - 1) % 256) }, env)
  | Nat.succ _, Instruction.Forward, s, env =>
    some ({ s with
            mem := if s.pointer + 1 = s.mem.length then s.mem ++ [0] else s.mem,
            pointer := s.pointer + 1 }, env)
  | Nat.succ _, Instruction.Backward, s, env =>
    some ({ s with pointer := if s.pointer ≠ 0 then s.pointer - 1 else s.pointer }, env)
  | Nat.succ f, Instruction.Loop inners, s, env =>
    match runList f inners s env with
    | none => none
    | some (s1, env1) =>
      match s1.mem[s1.pointer]? with
      | none => none
      | some v => if v = 0 then some (s1, env1) else run f (Instruction.Loop inners) s1 env1
  | Nat.succ _, Instruction.LoopEnd, s, env => some (s, env)
  | Nat.succ _, Instruction.Out, s, env =>
    match s.mem[s.pointer]? with
    | none => none
    | some v =>
      some ({ s with outted := true }, { env with stdout := env.stdout ++ [to_char_8859 v] })
  | Nat.succ _, Instruction.In, s, env =>
    match env.stdin with
    | [] => some (s, env)
    | c :: rest =>
      if s.pointer < s.mem.length then
        some ({ s with mem := s.mem.set s.pointer (from_char_8859 c), outted := true },
              { env with stdin := rest })
      else none

/-- A loop body's pass: the `for inner in inners { self.run(inner) }` of the
`Loop` arm, each instruction run in order against the threaded state. -/
def runList : Nat → List Instruction → State → Streams → Option (State × Streams)
  | 0, _, _, _ => none
  | Nat.succ _, [], s, env => some (s, env)
  | Nat.succ f, i :: rest, s, env =>
    match run f i s env with
    | none => none
    | some (s1, env1) => runList f rest s1 env1

end

/-- `run` reaches a result at some fuel (the Rust execution terminates with
this outcome). -/
def RunsTo (ins : Instruction) (s : State) (env : Streams)
    (s' : State) (env' : Streams) : Prop :=
  ∃ f, run f ins s env = some (s', env')

/-- `runList` reaches a result at some fuel: one full in-order pass over the
instruction sequence terminates with this outcome. -/
def RunsListTo (l : List Instruction) (s : State) (env : Streams)
    (s' : State) (env' : Streams) : Prop :=
  ∃ f, runList f l s env = some (s', env')

/-- Do-while passes of a loop body: at least one full pass runs; after each
pass the cell at the then-current pointer decides, a non-zero value starting
another full pass and zero stopping exactly there. -/
inductive LoopPasses (body : List Instruction) :
    State → Streams → State → Streams → Prop where
  | last {s env s' env'} :
      RunsListTo body s env s' env' →
      s'.mem[s'.pointer]? = some 0 →
      LoopPasses body s env s' env'
  | step {s env s1 env1 s' env' v} :
      RunsListTo body s env s1 env1 →
      s1.mem[s1.pointer]? = some v →
      v ≠ 0 →
      LoopPasses body s1 env1 s' env' →
      LoopPasses body s env s' env'

mutual

/-- No `LoopEnd` node occurs anywhere in an instruction tree. -/
def noLoopEnd : Instruction → Bool
  | Instruction.LoopEnd => false
  | Instruction.Loop l => noLoopEndList l
  | _ => true

/-- No `LoopEnd` node occurs anywhere in an instruction forest. -/
def noLoopEndList : List Instruction → Bool
  | [] => true
  | i :: rest => noLoopEnd i && noLoopEndList rest

end

/-- Append one instruction to the open (top) sequence of the parse stack. -/
def appendTop (stack : List (List Instruction)) (i : Instruction) :
    List (List Instruction) :=
  match stack with
  | top :: rest => (top ++ [i]) :: rest
  | [] => [[i]]

/-- Modelled from the spec: `src/interpret.rs` (the full-program parser) is
declared by `src/lib.rs` but is not among the repository's source files.
Following §4.1, one scan step: classify the character by the
single-character rule; an unrecognized character is silently skipped; `[`
(an empty `Loop`) pushes a fresh open sequence; `]` (`LoopEnd`) pops the
open sequence, wraps it in a `Loop` and appends it to the sequence below,
permissively doing nothing when only the top level is open; every other
instruction is appended to the open sequence. -/
def parseStep (stack : List (List Instruction)) (c : Nat) :
    List (List Instruction) :=
  match instructionTryFromChar c with
  | Except.error _ => stack
  | Except.ok (Instruction.Loop _) => [] :: stack
  | Except.ok Instruction.LoopEnd =>
    match stack with
    | top :: next :: rest => (next ++ [Instruction.Loop top]) :: rest
    | other => other
  | Except.ok i => appendTop stack i

/-- Modelled from the spec: a source ending with unclosed brackets is
handled permissively, each still-open sequence closed as a `Loop` appended
to the sequence below it. -/
def closeAll : List (List Instruction) → List Instruction
  | [] => []
  | [top] => top
  | top :: next :: rest => closeAll ((next ++ [Instruction.Loop top]) :: rest)
termination_by l => l.length

/-- Modelled from the spec: the full-program parse operation, scanning the
source characters left to right over a stack of open sequences that starts
as the single empty top-level sequence. -/
def parse (src : List Nat) : List Instruction :=
  closeAll (src.foldl parseStep [[]])

/-- Every sequence on the parse stack is free of `LoopEnd` nodes. -/
def StackOk (stack : List (List Instruction)) : Prop :=
  ∀ l ∈ stack, noLoopEndList l = true

/-- Joint invariant preservation for `run` and `runList`: a successful run
from a state whose pointer is in bounds ends with the pointer in bounds and
the memory at least as long. -/
theorem run_runList_inv (f : Nat) :
    (∀ ins s env s' env', run f ins s env = some (s', env') →
        s.pointer < s.mem.length →
        s'.pointer < s'.mem.length ∧ s.mem.length ≤ s'.mem.length)
    ∧ (∀ l s env s' env', runList f l s env = some (s', env') →
        s.pointer < s.mem.length →
        s'.pointer < s'.mem.length ∧ s.mem.length ≤ s'.mem.length) := by
  induction f with
  | zero =>
    constructor <;> intro a s env s' env' h <;> simp [run, runList] at h
  | succ f ih =>
    constructor
    · intro ins s env s' env' h hp
      cases ins with
      | Increment =>
        cases hg : s.mem[s.pointer]? <;> simp [run, hg] at h
        obtain ⟨rfl, rfl⟩ := h
        simpa using hp
      | Decrement =>
        cases hg : s.mem[s.pointer]? <;> simp [run, hg] at h
        obtain ⟨rfl, rfl⟩ := h
        simpa using hp
      | Forward =>
        simp [run] at h
        obtain ⟨rfl, rfl⟩ := h
        by_cases he : s.pointer + 1 = s.mem.length <;> simp [he] <;> omega
      | Backward =>
        simp [run] at h
        obtain ⟨rfl, rfl⟩ := h
        by_cases he : s.pointer = 0 <;> simp [he] <;> omega
      | Loop inners =>
        cases hr : runList f inners s env with
        | none => simp [run, hr] at h
        | some p =>
          obtain ⟨s1, env1⟩ := p
          have h1 := ih.2 inners s env s1 env1 hr hp
          cases hg : s1.mem[s1.pointer]? with
          | none => simp [run, hr, hg] at h
          | some v =>
            by_cases hv : v = 0
            · simp [run, hr, hg, hv] at h
              obtain ⟨rfl, rfl⟩ := h
              exact h1
            · simp [run, hr, hg, hv] at h
              have h2 := ih.1 (Instruction.Loop inners) s1 env1 s' env' h h1.1
              exact ⟨h2.1, le_trans h1.2 h2.2⟩
      | LoopEnd =>
        simp [run] at h
        obtain ⟨rfl, rfl⟩ := h
        exact ⟨hp, le_refl _⟩
      | Out =>
        cases hg : s.mem[s.pointer]? <;> simp [run, hg] at h
        obtain ⟨rfl, rfl⟩ := h
        exact ⟨hp, le_refl _⟩
      | In =>
        cases hs : env.stdin with
        | nil =>
          simp [run, hs] at h
          obtain ⟨rfl, rfl⟩ := h
          exact ⟨hp, le_refl _⟩
        | cons c rest =>
          simp [run, hs, hp] at h
          obtain ⟨rfl, rfl⟩ := h
          simpa using hp
    · intro l s env s' env' h hp
      cases l with
      | nil =>
        simp [runList] at h
        obtain ⟨rfl, rfl⟩ := h
        exact ⟨hp, le_refl _⟩
      | cons i rest =>
        cases hr : run f i s env with
        | none => simp [runList, hr] at h
        | some p =>
          obtain ⟨s1, env1⟩ := p
          simp [runList, hr] at h
          have h1 := ih.1 i s env s1 env1 hr hp
          have h2 := ih.2 rest s1 env1 s' env' h h1.1
          exact ⟨h2.1, le_trans h1.2 h2.2⟩

/-- Fuel monotonicity: a result reached at fuel `f` is still reached one
unit higher. -/
theorem run_runList_mono (f : Nat) :
    (∀ ins s env r, run f ins s env = some r → run (f + 1) ins s env = some r)
    ∧ (∀ l s env r, runList f l s env = some r → runList (f + 1) l s env = some r) := by
  induction f with
  | zero =>
    constructor <;> intro a s env r h <;> simp [run, runList] at h
  | succ f ih =>
    constructor
    · intro ins s env r h
      obtain ⟨s', env'⟩ := r
      cases ins with
      | Loop inners =>
        cases hr : runList f inners s env with
        | none => simp [run, hr] at h
        | some p =>
          obtain ⟨s1, env1⟩ := p
          have hr' := ih.2 inners s env (s1, env1) hr
          cases hg : s1.mem[s1.pointer]? with
          | none => simp [run, hr, hg] at h
          | some v =>
            by_cases hv : v = 0
            · simp [run, hr, hg, hv] at h
              obtain ⟨rfl, rfl⟩ := h
              simp [run, hr', hg, hv]
            · simp [run, hr, hg, hv] at h
              simpa [run, hr', hg, hv] using ih.1 _ _ _ _ h
      | Increment => simpa [run] using h
      | Decrement => simpa [run] using h
      | Forward => simpa [run] using h
      | Backward => simpa [run] using h
      | LoopEnd => simpa [run] using h
      | Out => simpa [run] using h
      | In => simpa [run] using h
    · intro l s env r h
      cases l with
      | nil => simpa [runList] using h
      | cons i rest =>
        cases hr : run f i s env with
        | none => simp [runList, hr] at h
        | some p =>
          obtain ⟨s1, env1⟩ := p
          simp [runList, hr] at h
          have hr' := ih.1 i s env (s1, env1) hr
          simpa [runList, hr'] using ih.2 _ _ _ _ h

/-- Fuel monotonicity for `run`, any larger fuel. -/
theorem run_mono_le {f f' : Nat} (hf : f ≤ f') (ins : Instruction) (s : State)
    (env : Streams) (r : State × Streams) (h : run f ins s env = some r) :
    run f' ins s env = some r := by
  induction hf with
  | refl => exact h
  | step _ ih => exact (run_runList_mono _).1 _ _ _ _ ih

/-- Writing back the value a cell already holds leaves the tape unchanged. -/
theorem set_getElem_self (l : List Nat) (n v : Nat) (h : l[n]? = some v) :
    l.set n v = l := by
  induction l generalizing n with
  | nil => simp at h
  | cons a t iht =>
    cases n with
    | zero =>
      simp at h
      simp [h]
    | succ m =>
      simp at h
      simp [iht m h]

/-- Fuel monotonicity for `runList`, any larger fuel. -/
theorem runList_mono_le {f f' : Nat} (hf : f ≤ f') (l : List Instruction) (s : State)
    (env : Streams) (r : State × Streams) (h : runList f l s env = some r) :
    runList f' l s env = some r := by
  induction hf with
  | refl => exact h
  | step _ ih => exact (run_runList_mono _).2 _ _ _ _ ih

end Headaches

namespace Headaches

/-- C1: the claimed round trip fails at byte 0: `to_char_8859 0` is the
space character, and `from_char_8859` sends space to 144, not 0. -/
theorem c1_roundtrip_fails_at_zero :
    from_char_8859 (to_char_8859 0) = 144
      ∧ ¬ (from_char_8859 (to_char_8859 0) = 0) := by decide

/-- C1 (amended): the round trip `from_char_8859 (to_char_8859 b) = b` holds
exactly for the 191 bytes whose character occurs once in the table — among
them 32, whose character is the thin space 8201, not the plain space —
together with 144 (the last space cell's byte) and 160 (the first `£`
cell's byte): it fails for the 65 bytes 0–31, 127–159 except 144, and 163,
whose characters (space, `£`) are duplicated in the table. -/
theorem c1_roundtrip_characterisation (b : Nat) (hb : b < 256) :
    from_char_8859 (to_char_8859 b) = b ↔
      ((32 ≤ b ∧ b ≤ 126) ∨ b = 144 ∨ (160 ≤ b ∧ b ≠ 163)) := by
  revert hb
  revert b
  decide

/-- C1 witness: the amended round-trip characterisation at byte 65 (`A`). -/
theorem c1_roundtrip_characterisation_witness :
    from_char_8859 (to_char_8859 65) = 65 ↔
      ((32 ≤ 65 ∧ 65 ≤ 126) ∨ 65 = 144 ∨ (160 ≤ 65 ∧ 65 ≠ 163)) :=
  c1_roundtrip_characterisation 65 (by decide)

/-- C9: for every character occurring more than once in the table,
`from_char_8859` returns `16 * r + d` with `r` the largest row index whose
row contains it and `d` the smallest column index within that row; in
particular the space character (code 32) maps to byte 144. -/
theorem c9_duplicate_resolution :
    (∀ c, c < 256 → 2 ≤ tableCount c →
        from_char_8859 c = 16 * lastRowWith c + firstColIn (lastRowWith c) c)
      ∧ from_char_8859 32 = 144 := by
  constructor
  · decide
  · decide

/-- C9 witness: the duplicate-resolution rule evaluated at the space
character (code 32, table count 65, last row 9, first column 0). -/
theorem c9_duplicate_resolution_witness :
    from_char_8859 32 = 16 * lastRowWith 32 + firstColIn (lastRowWith 32) 32 :=
  c9_duplicate_resolution.1 32 (by decide) (by decide)

/-- C2: executing any instruction from a state whose pointer is a valid
index into `mem` ends (when it ends) in a state whose pointer is again a
valid index, and `mem` never shrinks. -/
theorem c2_pointer_in_bounds_mem_never_shrinks (f : Nat) (ins : Instruction)
    (s : State) (env : Streams) (s' : State) (env' : Streams)
    (hp : s.pointer < s.mem.length)
    (h : run f ins s env = some (s', env')) :
    s'.pointer < s'.mem.length ∧ s.mem.length ≤ s'.mem.length :=
  (run_runList_inv f).1 ins s env s' env' h hp

/-- C2 witness: the invariant theorem applied to `Increment` on the
single-cell state holding 5, which runs to the single-cell state holding 6. -/
theorem c2_pointer_in_bounds_mem_never_shrinks_witness :
    ({ mem := [6], pointer := 0, outted := false } : State).pointer <
        ({ mem := [6], pointer := 0, outted := false } : State).mem.length ∧
      ({ mem := [5], pointer := 0, outted := false } : State).mem.length ≤
        ({ mem := [6], pointer := 0, outted := false } : State).mem.length :=
  c2_pointer_in_bounds_mem_never_shrinks 1 Instruction.Increment
    { mem := [5], pointer := 0, outted := false } { stdin := [], stdout := [] }
    { mem := [6], pointer := 0, outted := false } { stdin := [], stdout := [] }
    (by decide) rfl

/-- C3: a `Loop(body)` execution terminates with a given outcome exactly
when some do-while pass sequence does: the body runs once unconditionally
as a full in-order pass, the cell at the then-current pointer is checked
after each pass, a non-zero value repeats the whole body and zero stops
exactly there. -/
theorem c3_loop_do_while (body : List Instruction) (s : State) (env : Streams)
    (s' : State) (env' : Streams) :
    RunsTo (Instruction.Loop body) s env s' env' ↔ LoopPasses body s env s' env' := by
  constructor
  · rintro ⟨f, h⟩
    induction f generalizing s env with
    | zero => simp [run] at h
    | succ f ih =>
      cases hr : runList f body s env with
      | none => simp [run, hr] at h
      | some p =>
        obtain ⟨s1, env1⟩ := p
        cases hg : s1.mem[s1.pointer]? with
        | none => simp [run, hr, hg] at h
        | some v =>
          by_cases hv : v = 0
          · simp [run, hr, hg, hv] at h
            obtain ⟨rfl, rfl⟩ := h
            exact LoopPasses.last ⟨f, hr⟩ (hv ▸ hg)
          · simp [run, hr, hg, hv] at h
            exact LoopPasses.step ⟨f, hr⟩ hg hv (ih s1 env1 h)
  · intro hp
    induction hp with
    | last hrl hz =>
      obtain ⟨f, hf⟩ := hrl
      exact ⟨f + 1, by simp [run, hf, hz]⟩
    | step hrl hg hv _ ih =>
      obtain ⟨f1, h1⟩ := hrl
      obtain ⟨f2, h2⟩ := ih
      refine ⟨max f1 f2 + 1, ?_⟩
      have h1' := runList_mono_le (le_max_left f1 f2) _ _ _ _ h1
      have h2' := run_mono_le (le_max_right f1 f2) _ _ _ _ h2
      simp [run, h1', hg, hv, h2']

/-- C4: with the pointer in bounds, `Forward` at the last existing cell
appends exactly one zero cell and advances the pointer, otherwise it only
advances the pointer; `Backward` at pointer 0 changes neither the pointer
nor the memory, otherwise it only decrements the pointer. -/
theorem c4_forward_backward (f : Nat) (s : State) (env : Streams)
    (hp : s.pointer < s.mem.length) :
    (s.pointer + 1 = s.mem.length →
        run (f + 1) Instruction.Forward s env =
          some ({ s with mem := s.mem ++ [0], pointer := s.pointer + 1 }, env))
      ∧ (s.pointer + 1 < s.mem.length →
        run (f + 1) Instruction.Forward s env =
          some ({ s with pointer := s.pointer + 1 }, env))
      ∧ (s.pointer = 0 → run (f + 1) Instruction.Backward s env = some (s, env))
      ∧ (s.pointer ≠ 0 →
        run (f + 1) Instruction.Backward s env =
          some ({ s with pointer := s.pointer - 1 }, env)) := by
  refine ⟨fun h => ?_, fun h => ?_, fun h => ?_, fun h => ?_⟩
  · simp [run, h]
  · simp [run, Nat.ne_of_lt h]
  · obtain ⟨m, p, o⟩ := s
    simp only at h
    subst h
    simp [run]
  · simp [run, h]

/-- C4 witness: the `Forward` growth clause on the fresh single-cell state,
and the `Backward` no-op clause on the same state. -/
theorem c4_forward_backward_witness :
    run 1 Instruction.Forward { mem := [0], pointer := 0, outted := false }
        { stdin := [], stdout := [] } =
      some ({ mem := [0] ++ [0], pointer := 0 + 1, outted := false },
        { stdin := [], stdout := [] }) :=
  (c4_forward_backward 0 { mem := [0], pointer := 0, outted := false }
    { stdin := [], stdout := [] } (by decide)).1 rfl

/-- C5: with the pointer in bounds on a cell value `v < 256`, `Increment`
rewrites the cell to `(v + 1) % 256` and `Decrement` to `(v + 255) % 256`,
both returning a result (no error); running `Increment` then `Decrement`
restores the state (and streams) exactly. -/
theorem c5_wrapping_increment_decrement (f : Nat) (s : State) (env : Streams)
    (v : Nat) (hv : s.mem[s.pointer]? = some v) (h256 : v < 256) :
    run (f + 1) Instruction.Increment s env =
        some ({ s with mem := s.mem.set s.pointer ((v + 1) % 256) }, env)
      ∧ run (f + 1) Instruction.Decrement s env =
        some ({ s with mem := s.mem.set s.pointer ((v + 255) % 256) }, env)
      ∧ ∀ s1 env1 s2 env2,
          run (f + 1) Instruction.Increment s env = some (s1, env1) →
          run (f + 1) Instruction.Decrement s1 env1 = some (s2, env2) →
          s2 = s ∧ env2 = env := by
  have hlt : s.pointer < s.mem.length := (List.getElem?_eq_some.mp hv).1
  have hIncEq : run (f + 1) Instruction.Increment s env =
      some ({ s with mem := s.mem.set s.pointer ((v + 1) % 256) }, env) := by
    simp [run, hv]
  have hDecEq : run (f + 1) Instruction.Decrement s env =
      some ({ s with mem := s.mem.set s.pointer ((v + 255) % 256) }, env) := by
    have e : v + 256 - 1 = v + 255 := by omega
    simp [run, hv, e]
  refine ⟨hIncEq, hDecEq, ?_⟩
  intro s1 env1 s2 env2 h1 h2
  obtain ⟨rfl, rfl⟩ : s1 = { s with mem := s.mem.set s.pointer ((v + 1) % 256) }
      ∧ env1 = env := by
    simpa [Prod.ext_iff] using h1.symm.trans hIncEq
  have hv1 : (s.mem.set s.pointer ((v + 1) % 256))[s.pointer]? =
      some ((v + 1) % 256) := List.getElem?_set_eq_of_lt _ hlt
  have hmem : (s.mem.set s.pointer ((v + 1) % 256)).set s.pointer
      (((v + 1) % 256 + 256 - 1) % 256) = s.mem := by
    rw [List.set_set]
    have harith : ((v + 1) % 256 + 256 - 1) % 256 = v := by omega
    rw [harith]
    exact set_getElem_self s.mem s.pointer v hv
  have hDec : run (f + 1) Instruction.Decrement
      ({ s with mem := s.mem.set s.pointer ((v + 1) % 256) }) env1 =
      some (s, env1) := by
    simp only [run, hv1]
    rw [hmem]
  simpa [Prod.ext_iff] using h2.symm.trans hDec

/-- C5 witness: `Increment` on the single-cell state holding 255 wraps the
cell to `(255 + 1) % 256 = 0` without an error. -/
theorem c5_wrapping_increment_decrement_witness :
    run 1 Instruction.Increment { mem := [255], pointer := 0, outted := false }
        { stdin := [], stdout := [] } =
      some ({ mem := [255].set 0 ((255 + 1) % 256), pointer := 0, outted := false },
        { stdin := [], stdout := [] }) :=
  (c5_wrapping_increment_decrement 0 { mem := [255], pointer := 0, outted := false }
    { stdin := [], stdout := [] } 255 rfl (by decide)).1

/-- C6: with the pointer in bounds, `In` on a stream yielding a character
`c` stores `from_char_8859 c` into the current cell and sets `outted`,
consuming `c`; `In` on an ended stream returns the state and streams
untouched, raising no error. -/
theorem c6_input_semantics (f : Nat) (s : State) (env : Streams)
    (hp : s.pointer < s.mem.length) :
    (∀ c rest, env.stdin = c :: rest →
        run (f + 1) Instruction.In s env =
          some ({ s with mem := s.mem.set s.pointer (from_char_8859 c), outted := true },
            { env with stdin := rest }))
      ∧ (env.stdin = [] → run (f + 1) Instruction.In s env = some (s, env)) := by
  constructor
  · intro c rest hc
    simp [run, hc, hp]
  · intro hc
    simp [run, hc]

/-- C6 witness: the empty-stream clause on the fresh state — the program
`,` on an empty input leaves the cell 0 and `outted` false. -/
theorem c6_input_semantics_witness :
    run 1 Instruction.In { mem := [0], pointer := 0, outted := false }
        { stdin := [], stdout := [] } =
      some ({ mem := [0], pointer := 0, outted := false },
        { stdin := [], stdout := [] }) :=
  (c6_input_semantics 0 { mem := [0], pointer := 0, outted := false }
    { stdin := [], stdout := [] } (by decide)).2 rfl

/-- C8: with the pointer on a cell holding `v`, `Out` sets `outted` and
appends exactly the one character `to_char_8859 v` to stdout, leaving the
cell, the pointer, the memory and stdin unchanged. -/
theorem c8_output_semantics (f : Nat) (s : State) (env : Streams) (v : Nat)
    (hv : s.mem[s.pointer]? = some v) :
    run (f + 1) Instruction.Out s env =
      some ({ s with outted := true },
        { env with stdout := env.stdout ++ [to_char_8859 v] }) := by
  simp [run, hv]

/-- C8 witness: `Out` on the single-cell state holding 2 appends
`to_char_8859 2` (the space character, code 32) to the empty stdout. -/
theorem c8_output_semantics_witness :
    run 1 Instruction.Out { mem := [2], pointer := 0, outted := false }
        { stdin := [], stdout := [] } =
      some ({ mem := [2], pointer := 0, outted := true },
        { stdin := [], stdout := [] ++ [to_char_8859 2] }) :=
  c8_output_semantics 0 { mem := [2], pointer := 0, outted := false }
    { stdin := [], stdout := [] } 2 rfl

/-- `noLoopEndList` distributes over appending forests. -/
theorem noLoopEndList_append (a b : List Instruction) :
    noLoopEndList (a ++ b) = (noLoopEndList a && noLoopEndList b) := by
  induction a with
  | nil => simp [noLoopEndList]
  | cons i rest ih => simp [noLoopEndList, ih, Bool.and_assoc]

/-- Appending a `LoopEnd`-free instruction keeps the stack `LoopEnd`-free. -/
theorem appendTop_ok (stack : List (List Instruction)) (i : Instruction)
    (hi : noLoopEnd i = true) (h : StackOk stack) : StackOk (appendTop stack i) := by
  cases stack with
  | nil =>
    intro x hx
    simp [appendTop] at hx
    subst hx
    simp [noLoopEndList, hi]
  | cons top rest =>
    intro x hx
    simp [appendTop] at hx
    rcases hx with rfl | hx
    · simp [noLoopEndList_append, noLoopEndList, hi, h top (by simp)]
    · exact h x (by simp [hx])

/-- One parser scan step keeps every stacked sequence `LoopEnd`-free. -/
theorem parseStep_ok (stack : List (List Instruction)) (c : Nat)
    (h : StackOk stack) : StackOk (parseStep stack c) := by
  cases he : instructionTryFromChar c with
  | error e => simpa [parseStep, he] using h
  | ok i =>
    cases i with
    | Increment =>
      simp only [parseStep, he]
      exact appendTop_ok stack _ rfl h
    | Decrement =>
      simp only [parseStep, he]
      exact appendTop_ok stack _ rfl h
    | Forward =>
      simp only [parseStep, he]
      exact appendTop_ok stack _ rfl h
    | Backward =>
      simp only [parseStep, he]
      exact appendTop_ok stack _ rfl h
    | Out =>
      simp only [parseStep, he]
      exact appendTop_ok stack _ rfl h
    | In =>
      simp only [parseStep, he]
      exact appendTop_ok stack _ rfl h
    | Loop l =>
      simp only [parseStep, he]
      intro x hx
      rcases List.mem_cons.mp hx with rfl | hx
      · rfl
      · exact h x hx
    | LoopEnd =>
      simp only [parseStep, he]
      cases stack with
      | nil => simpa using h
      | cons top rest =>
        cases rest with
        | nil => simpa using h
        | cons next rest2 =>
          intro x hx
          simp at hx
          rcases hx with rfl | hx
          · simp [noLoopEndList_append, noLoopEndList, noLoopEnd,
              h next (by simp), h top (by simp)]
          · exact h x (by simp [hx])

/-- Closing every still-open sequence preserves `LoopEnd`-freeness. -/
theorem closeAll_ok (stack : List (List Instruction)) (h : StackOk stack) :
    noLoopEndList (closeAll stack) = true := by
  revert h
  induction stack using closeAll.induct with
  | case1 =>
    intro h
    simp [closeAll, noLoopEndList]
  | case2 top =>
    intro h
    simpa [closeAll] using h top (by simp)
  | case3 top next rest ih =>
    intro h
    rw [closeAll]
    apply ih
    intro x hx
    rcases List.mem_cons.mp hx with rfl | hx
    · simp [noLoopEndList_append, noLoopEndList, noLoopEnd,
        h next (by simp), h top (by simp)]
    · exact h x (by simp [hx])

/-- C10: the instruction tree produced by the full-program parser contains
no `LoopEnd` node anywhere, at top level or inside any `Loop` body. -/
theorem c10_parse_has_no_loopend (src : List Nat) :
    noLoopEndList (parse src) = true := by
  have hstep : ∀ st, StackOk st → StackOk (src.foldl parseStep st) := by
    induction src with
    | nil => exact fun st h => h
    | cons c rest ih =>
      intro st h
      simp only [List.foldl_cons]
      exact ih _ (parseStep_ok st c h)
  refine closeAll_ok _ (hstep [[]] ?_)
  intro x hx
  simp at hx
  subst hx
  rfl

/-- C7: the single-character classifier succeeds exactly on the eight
instruction characters `+ - > < [ ] . ,` (code points 43, 45, 62, 60, 91,
93, 46, 44), yielding Increment, Decrement, Forward, Backward, an empty
Loop, LoopEnd, Out and In respectively, and fails with the
unrecognized-character error on every other character. -/
theorem c7_classifier_exact :
    instructionTryFromChar 43 = Except.ok Instruction.Increment
      ∧ instructionTryFromChar 45 = Except.ok Instruction.Decrement
      ∧ instructionTryFromChar 62 = Except.ok Instruction.Forward
      ∧ instructionTryFromChar 60 = Except.ok Instruction.Backward
      ∧ instructionTryFromChar 91 = Except.ok (Instruction.Loop [])
      ∧ instructionTryFromChar 93 = Except.ok Instruction.LoopEnd
      ∧ instructionTryFromChar 46 = Except.ok Instruction.Out
      ∧ instructionTryFromChar 44 = Except.ok Instruction.In
      ∧ ∀ c, c ∉ [43, 45, 62, 60, 91, 93, 46, 44] →
          instructionTryFromChar c = Except.error ⟨⟩ := by
  refine ⟨rfl, rfl, rfl, rfl, rfl, rfl, rfl, rfl, ?_⟩
  intro c h
  simp at h
  obtain ⟨h1, h2, h3, h4, h5, h6, h7, h8⟩ := h
  simp [instructionTryFromChar, h1, h2, h3, h4, h5, h6, h7, h8]

/-- C7 witness: classification of `'x'` (code point 120) fails with the
unrecognized-character error. -/
theorem c7_classifier_exact_witness :
    instructionTryFromChar 120 = Except.error ⟨⟩ :=
  c7_classifier_exact.2.2.2.2.2.2.2.2 120 (by decide)

end Headaches
